import Mathlib

/-!
# Music-tagger job lifecycle: a shallow embedding

This file embeds the job lifecycle engine of the music-tagger repository
(`worker/tasks.py`, `ui/app.py`) in Lean and proves properties of its
state machine, routing policy, and tag-writing behaviour.

Modelling conventions:
* a SQLite row for a job becomes the `Job` structure; the store restricted
  to one job id is an `Option Job` (`none` = no row with that id);
* every `db.commit()` that follows a mutation of the row is recorded as a
  snapshot in a `trace : List Job`, since committed states are observable
  by other actors;
* external collaborators (fpcalc, AcoustID, MusicBrainz, mutagen) are
  modelled by environment records carrying the values their calls return;
* Python floats are modelled as `ℚ`; JSON round-trips through the
  `matched_meta` column are modelled structurally; a key that is absent or
  has value `None` is `Option.none` (both are falsy under `.get`);
* enqueueing onto an RQ channel is recorded as the channel name in an
  `enqueues : List String` effect list.
-/

/-- The `matched_meta` JSON blob built by `analyze_track`.  A field that the
pipeline did not set (or set to `None`) is `none`. -/
structure MatchedMeta where
  title : Option String
  artist : Option String
  album : Option String
  date : Option String
  release_group_id : Option String
  confidence : Option ℚ
  deriving DecidableEq

/-- A `matched_meta` with no key at all (`json.loads` of a null column is
replaced by `{}` in `write_tags`). -/
def MatchedMeta.empty : MatchedMeta :=
  ⟨none, none, none, none, none, none⟩

/-- One row of the `jobs` table (timestamps omitted: never read back by the
code).  `current_meta` holds the serialized JSON blob, which the lifecycle
engine treats as opaque. -/
structure Job where
  path : String
  queue : String
  status : String
  confidence : Option ℚ
  current_meta : Option String
  matched_meta : Option MatchedMeta
  error : Option String
  deriving DecidableEq

/-- The `(queue, status)` pair of a job row. -/
def Job.statePair (j : Job) : String × String :=
  (j.queue, j.status)

/-! ## Recognition-service results (`lookup_acoustid` return value) -/

/-- One entry of a recording's `releasegroups` list. -/
structure ReleaseGroup where
  id : Option String
  title : Option String
  deriving DecidableEq

/-- One entry of a result's `recordings` list.  `releasegroups = none` means
the key is absent; `some l` means the key is present with list `l` (possibly
empty). -/
structure Recording where
  title : Option String
  artists : List String
  releasegroups : Option (List ReleaseGroup)
  deriving DecidableEq

/-- The payload of a dict result: `score` is the raw service score
(`result.get("score", 0)` when absent), `recordings = none` when the
`"recordings"` key is absent. -/
structure ResultObj where
  score : Option ℚ
  recordings : Option (List Recording)
  deriving DecidableEq

/-- One element of the list returned by `lookup_acoustid`; the API sometimes
returns non-dict entries, which `analyze_track` skips. -/
inductive AcoustidResult where
  | nonDict
  | dict (o : ResultObj)
  deriving DecidableEq

/-- The mutable `best_match` value of `analyze_track`'s selection loop. -/
structure BestMatch where
  score : ℚ
  title : Option String
  artists : List String
  releases : List ReleaseGroup
  deriving DecidableEq

/-- `result.get("score", 0) * 100`. -/
def ResultObj.score100 (o : ResultObj) : ℚ :=
  o.score.getD 0 * 100

/-- The `for result in results:` loop of `analyze_track` (tasks.py lines
192-211), carrying the mutable `best_score` / `best_match` pair.  A dict
result updates the pair when its scaled score strictly exceeds `best_score`,
its `"recordings"` key is present, and some recording carries a
`"releasegroups"` key (the first such recording is taken, then `break`). -/
def findBestLoop (best : ℚ) (cur : Option BestMatch) :
    List AcoustidResult → Option BestMatch × ℚ
  | [] => (cur, best)
  | .nonDict :: rs => findBestLoop best cur rs
  | .dict o :: rs =>
    match o.recordings with
    | none => findBestLoop best cur rs
    | some recs =>
      if o.score100 > best then
        match recs.find? (fun rec => rec.releasegroups.isSome) with
        | some rec =>
          findBestLoop o.score100
            (some ⟨o.score100, rec.title, rec.artists, rec.releasegroups.getD []⟩) rs
        | none => findBestLoop best cur rs
      else findBestLoop best cur rs

/-! ## The analysis pipeline (`analyze_track`) -/

/-- Values returned by the external collaborators during one analysis run:
whether `fingerprint_file` produced a fingerprint, the serialized
`get_current_metadata` blob, the AcoustID result list, and the MusicBrainz
release-group details (`none` if `get_musicbrainz_release` returned `None`;
`some d` carries `d = release-group dict's "first-release-date"`, itself
`none` when that key is absent). -/
structure AnalyzeEnv where
  fingerprint_ok : Bool
  current_meta_json : String
  results : List AcoustidResult
  mb_first_release_date : Option (Option String)
  deriving DecidableEq

/-- The dict `analyze_track` returns to its RQ caller. -/
inductive AnalyzeResult where
  | jobNotFound
  | success (confidence : ℚ) (queue : String)
  | failure (error : String)
  deriving DecidableEq

/-- Observable outcome of one `analyze_track` invocation: the committed row
snapshots, the final row, the channels enqueued onto, and the returned dict. -/
structure AnalyzeOut where
  trace : List Job
  store : Option Job
  enqueues : List String
  result : AnalyzeResult
  deriving DecidableEq

/-- The `except` branch of `analyze_track` (tasks.py lines 274-284): move the
row to `(failed, failed)` with the exception text. -/
def analyzeFail (claimed : Job) (msg : String) : AnalyzeOut :=
  let failed := { claimed with queue := "failed", status := "failed", error := some msg }
  ⟨[claimed, failed], some failed, [], .failure msg⟩

/-- Build the `matched_meta` dict from the selected best match (tasks.py lines
219-233).  `album`/`release_group_id` are set only when the match carries at
least one release group; `date` additionally requires the MusicBrainz call to
return details, and defaults to `""` when the details lack a release date. -/
def buildMatched (bm : BestMatch) (bestScore : ℚ)
    (mb : Option (Option String)) : MatchedMeta :=
  let base : MatchedMeta :=
    { title := bm.title
      artist := some (String.intercalate ", " bm.artists)
      album := none, date := none, release_group_id := none
      confidence := some bestScore }
  match bm.releases with
  | [] => base
  | rg :: _ =>
    let withAlbum := { base with album := rg.title, release_group_id := rg.id }
    match mb with
    | none => withAlbum
    | some d => { withAlbum with date := some (d.getD "") }

/-- `analyze_track(job_id)` (tasks.py lines 153-286) against the store row for
`job_id`, parameterized by the confidence threshold `t` and the collaborator
environment.  The row's status is set to `'processing'` by an `UPDATE`
conditioned only on the id; the pipeline then fails the job or routes it by
confidence, enqueueing onto the `"processing"` channel on auto-promotion. -/
def analyze_track (t : ℚ) (env : AnalyzeEnv) (store : Option Job) : AnalyzeOut :=
  match store with
  | none => ⟨[], none, [], .jobNotFound⟩
  | some job =>
    let claimed := { job with status := "processing" }
    if !env.fingerprint_ok then
      analyzeFail claimed "Failed to generate fingerprint"
    else if env.results.isEmpty then
      analyzeFail claimed "No AcoustID matches found"
    else
      match findBestLoop 0 none env.results with
      | (none, _) => analyzeFail claimed "No valid recordings found in AcoustID results"
      | (some bm, bestScore) =>
        let confidence := bestScore
        let target := if confidence ≥ t then "processing" else "review"
        let updated :=
          { claimed with
              queue := target, status := "pending"
              confidence := some confidence
              current_meta := some env.current_meta_json
              matched_meta := some (buildMatched bm bestScore env.mb_first_release_date) }
        ⟨[claimed, updated], some updated,
          if target = "processing" then ["processing"] else [],
          .success confidence target⟩

/-! ## The tag-commit pipeline (`write_tags`) -/

/-- The four generic fields of the file's tag container (EasyID3 / FLAC /
MP4 keys are container-specific names for the same four fields). -/
structure Tags where
  title : Option String
  artist : Option String
  album : Option String
  date : Option String
  deriving DecidableEq

/-- File kind as dispatched on `filepath.suffix.lower()`; `other` carries the
suffix used in the error message. -/
inductive FileKind where
  | mp3
  | flac
  | m4a
  | mp4
  | other (ext : String)
  deriving DecidableEq

/-- Collaborator values for one `write_tags` run: the file kind, the file's
pre-existing tags, and whether opening/saving the tag container raised
(`some e` = the exception text). -/
structure WriteEnv where
  kind : FileKind
  tags : Tags
  save_error : Option String
  deriving DecidableEq

/-- The dict `write_tags` returns to its RQ caller. -/
inductive WriteResult where
  | jobNotFound
  | success
  | failure (error : String)
  deriving DecidableEq

/-- Observable outcome of one `write_tags` invocation: committed row
snapshots, final row, the file's tags after the run, and the returned dict. -/
structure WriteOut where
  trace : List Job
  store : Option Job
  tags : Tags
  result : WriteResult
  deriving DecidableEq

/-- Python truthiness of `matched_meta.get(field)`: falsy when the key is
absent, `None`, or the empty string. -/
def truthy : Option String → Bool
  | some s => s ≠ ""
  | none => false

/-- The field-mapping block of `write_tags` (tasks.py lines 319-326 for MP4,
344-351 for ID3/FLAC): each of title/artist/album/date is written onto the
container exactly when its `matched_meta` value is truthy. -/
def applyTags (mm : MatchedMeta) (tags : Tags) : Tags :=
  let t1 := if truthy mm.title then { tags with title := mm.title } else tags
  let t2 := if truthy mm.artist then { t1 with artist := mm.artist } else t1
  let t3 := if truthy mm.album then { t2 with album := mm.album } else t2
  if truthy mm.date then { t3 with date := mm.date } else t3

/-- The `except` branch of `write_tags` (tasks.py lines 367-377). -/
def writeFail (claimed : Job) (tags : Tags) (msg : String) : WriteOut :=
  let failed := { claimed with queue := "failed", status := "failed", error := some msg }
  ⟨[claimed, failed], some failed, tags, .failure msg⟩

/-- Shared body for the supported-container branches of `write_tags`: map the
truthy fields, save; on save success commit `(done, done)`, on a raised save
leave the file unchanged and fail the job with the exception text. -/
def writeTagsBody (env : WriteEnv) (claimed : Job) (mm : MatchedMeta) : WriteOut :=
  match env.save_error with
  | some e => writeFail claimed env.tags e
  | none =>
    let done := { claimed with queue := "done", status := "done" }
    ⟨[claimed, done], some done, applyTags mm env.tags, .success⟩

/-- `write_tags(job_id)` (tasks.py lines 289-379) against the store row for
`job_id`.  A null `matched_meta` column is read as `{}`; the claim `UPDATE`
is conditioned only on the id; an unsupported suffix raises before any tag
is touched. -/
def write_tags (env : WriteEnv) (store : Option Job) : WriteOut :=
  match store with
  | none => ⟨[], none, env.tags, .jobNotFound⟩
  | some job =>
    let mm := job.matched_meta.getD MatchedMeta.empty
    let claimed := { job with status := "processing" }
    match env.kind with
    | .other ext => writeFail claimed env.tags ("Unsupported file type: " ++ ext)
    | .mp3 => writeTagsBody env claimed mm
    | .flac => writeTagsBody env claimed mm
    | .m4a => writeTagsBody env claimed mm
    | .mp4 => writeTagsBody env claimed mm

/-! ## Review and retry actions (`ui/app.py`, worker `approve_job`/`reject_job`) -/

/-- Observable outcome of an approve/reject/retry action. -/
structure ActionOut where
  trace : List Job
  store : Option Job
  enqueues : List String
  ok : Bool
  deriving DecidableEq

/-- `approve_job` of `ui/app.py` (lines 166-191): conditionally move the row
to `(processing, pending)` when its queue is `'review'`, then enqueue
`write_tags` whenever the row exists — whether or not the update applied. -/
def app_approve_job (store : Option Job) : ActionOut :=
  match store with
  | none => ⟨[], none, [], true⟩
  | some j =>
    if j.queue = "review" then
      let j' := { j with queue := "processing", status := "pending" }
      ⟨[j'], some j', ["processing"], true⟩
    else
      ⟨[j], some j, ["processing"], true⟩

/-- `approve_job` of `worker/tasks.py` (lines 382-402): same conditional
update, but the enqueue is performed unconditionally, even for a missing id. -/
def tasks_approve_job (store : Option Job) : ActionOut :=
  match store with
  | none => ⟨[], none, ["processing"], true⟩
  | some j =>
    if j.queue = "review" then
      let j' := { j with queue := "processing", status := "pending" }
      ⟨[j'], some j', ["processing"], true⟩
    else
      ⟨[j], some j, ["processing"], true⟩

/-- `reject_job` (identical SQL in `ui/app.py` lines 194-207 and
`worker/tasks.py` lines 405-419): set status `'rejected'` when the row's
queue is `'review'`; no enqueue. -/
def reject_job (store : Option Job) : ActionOut :=
  match store with
  | none => ⟨[], none, [], true⟩
  | some j =>
    if j.queue = "review" then
      let j' := { j with status := "rejected" }
      ⟨[j'], some j', [], true⟩
    else
      ⟨[j], some j, [], true⟩

/-- `retry_job` of `ui/app.py` (lines 257-308): conditionally move the row to
`(analysis, pending)` clearing `error` when its queue is `'failed'`; when the
update affected 0 rows respond with a 404 error (`ok := false`) and enqueue
nothing, otherwise enqueue onto the `"analysis"` channel. -/
def retry_job (store : Option Job) : ActionOut :=
  match store with
  | none => ⟨[], none, [], false⟩
  | some j =>
    if j.queue = "failed" then
      let j' := { j with queue := "analysis", status := "pending", error := none }
      ⟨[j'], some j', ["analysis"], true⟩
    else
      ⟨[j], some j, [], false⟩

/-! ## The §4.3 state machine -/

/-- The eight `(queue, status)` pairs of the spec's §4.3 state machine. -/
def validPairs : List (String × String) :=
  [("analysis", "pending"), ("analysis", "processing"),
   ("review", "pending"), ("review", "rejected"),
   ("processing", "pending"), ("processing", "processing"),
   ("done", "done"), ("failed", "failed")]

/-- The ten transitions of the spec's §4.3 table, as ordered pairs of
`(queue, status)` pairs. -/
def machineEdges : List ((String × String) × (String × String)) :=
  [(("analysis", "pending"), ("analysis", "processing")),
   (("analysis", "processing"), ("processing", "pending")),
   (("analysis", "processing"), ("review", "pending")),
   (("analysis", "processing"), ("failed", "failed")),
   (("review", "pending"), ("processing", "pending")),
   (("review", "pending"), ("review", "rejected")),
   (("processing", "pending"), ("processing", "processing")),
   (("processing", "processing"), ("done", "done")),
   (("processing", "processing"), ("failed", "failed")),
   (("failed", "failed"), ("analysis", "pending"))]

/-- `validEdge p q` holds when `p → q` is a §4.3 transition. -/
def validEdge (p q : String × String) : Prop :=
  (p, q) ∈ machineEdges

instance (p q : String × String) : Decidable (validEdge p q) :=
  inferInstanceAs (Decidable ((p, q) ∈ machineEdges))

/-- One store operation of the lifecycle engine, bundled with the
collaborator environment its run consumes. -/
inductive Op where
  | analyze (t : ℚ) (env : AnalyzeEnv)
  | commitTags (env : WriteEnv)
  | approveUI
  | approveWorker
  | rejectIt
  | retryIt

/-- Run one operation against the store row, yielding the committed
snapshots and the final row. -/
def runOp : Op → Option Job → List Job × Option Job
  | .analyze t env, s => let o := analyze_track t env s; (o.trace, o.store)
  | .commitTags env, s => let o := write_tags env s; (o.trace, o.store)
  | .approveUI, s => let o := app_approve_job s; (o.trace, o.store)
  | .approveWorker, s => let o := tasks_approve_job s; (o.trace, o.store)
  | .rejectIt, s => let o := reject_job s; (o.trace, o.store)
  | .retryIt, s => let o := retry_job s; (o.trace, o.store)

/-- Run a sequence of operations, concatenating the committed snapshots. -/
def runOps : List Op → Option Job → List Job × Option Job
  | [], s => ([], s)
  | op :: ops, s =>
    let out := runOp op s
    let rest := runOps ops out.2
    (out.1 ++ rest.1, rest.2)

/-- The `(queue, status)` pair from which each operation is intended to be
triggered per §4.3 (the pair its dispatch channel / UI page draws from). -/
def opSource : Op → String × String
  | .analyze _ _ => ("analysis", "pending")
  | .commitTags _ => ("processing", "pending")
  | .approveUI => ("review", "pending")
  | .approveWorker => ("review", "pending")
  | .rejectIt => ("review", "pending")
  | .retryIt => ("failed", "failed")

/-- A sequence of operations is well-sequenced from job `j` when each
operation fires only from its intended source state. -/
def WellSeq : List Op → Job → Prop
  | [], _ => True
  | op :: ops, j =>
    j.statePair = opSource op ∧
    ∀ j', (runOp op (some j)).2 = some j' → WellSeq ops j'

/-- The last element of `p :: l`. -/
def lastPair (p : String × String) : List (String × String) → String × String
  | [] => p
  | x :: xs => lastPair x xs

/-- `PathFrom p l q`: the pair sequence `p :: l` walks §4.3 edges and ends
at `q`. -/
def PathFrom (p : String × String) (l : List (String × String))
    (q : String × String) : Prop :=
  List.Chain validEdge p l ∧ lastPair p l = q

/-! ## Spec-side best-match selection (for comparison with `findBestLoop`) -/

/-- The scaled score of a result (0 for the non-dict entries the loop skips). -/
def resScore : AcoustidResult → ℚ
  | .nonDict => 0
  | .dict o => o.score100

/-- A result that carries a well-formed recording-with-release-group
association: a dict whose `"recordings"` key is present and in which some
recording carries the `"releasegroups"` key. -/
def isValidResult : AcoustidResult → Bool
  | .nonDict => false
  | .dict o =>
    match o.recordings with
    | none => false
    | some recs => recs.any (fun rec => rec.releasegroups.isSome)

/-- The best-match record built from a result's first
release-group-carrying recording. -/
def buildFromRes : AcoustidResult → Option BestMatch
  | .nonDict => none
  | .dict o =>
    match o.recordings with
    | none => none
    | some recs =>
      (recs.find? (fun rec => rec.releasegroups.isSome)).map
        (fun rec => ⟨o.score100, rec.title, rec.artists, rec.releasegroups.getD []⟩)

/-- Running maximum of a list of scores, seeded with `b`. -/
def maxFrom (b : ℚ) : List ℚ → ℚ
  | [] => b
  | s :: ss => maxFrom (max b s) ss

/-- Selection as the spec words it, amended for the loop's strict-positivity
seed: among the association-carrying candidates, take the one with the
highest scaled score, first-seen on ties; select nothing when no such
candidate scores strictly above 0. -/
def specSelect (l : List AcoustidResult) : Option BestMatch :=
  let valids := l.filter isValidResult
  let m := maxFrom 0 (valids.map resScore)
  if 0 < m then (valids.find? (fun r => resScore r = m)).bind buildFromRes
  else none

/-! ## Concrete fixtures -/

/-- A freshly seeded job row (`INSERT ... VALUES (?, 'analysis', 'pending')`). -/
def job0 : Job := ⟨"/music/a.mp3", "analysis", "pending", none, none, none, none⟩

/-- A finished job row. -/
def jobDone : Job := ⟨"/music/b.mp3", "done", "done", some 92, none, none, none⟩

/-- A job awaiting review. -/
def jobReview : Job := ⟨"/music/c.mp3", "review", "pending", some 65, none, none, none⟩

/-- `job0` after a failed fingerprinting run. -/
def jobFailed0 : Job :=
  { job0 with
    queue := "failed"
    status := "failed"
    error := some "Failed to generate fingerprint" }

/-- A release group returned by the recognition service. -/
def rgX : ReleaseGroup := ⟨some "rg-1", some "Album X"⟩

/-- A recording carrying a release-group association. -/
def recX : Recording := ⟨some "Title X", ["Artist X"], some [rgX]⟩

/-- An analysis environment in which `fpcalc` produced no fingerprint. -/
def envFpFail : AnalyzeEnv := ⟨false, "{}", [], none⟩

/-- An analysis environment with one association-carrying candidate at raw
service score `q`. -/
def envScore (q : ℚ) : AnalyzeEnv := ⟨true, "{}", [.dict ⟨some q, some [recX]⟩], none⟩

/-- Pre-existing tags of a file about to be rewritten. -/
def oldTags : Tags := ⟨some "Old Title", some "Old Artist", some "Old Album", some "1999"⟩

/-- A `matched_meta` populated only with title and artist (plus provenance). -/
def mmTA : MatchedMeta := ⟨some "New Title", some "New Artist", none, none, some "rg-1", some 92⟩

/-- A `matched_meta` with falsy (empty-string) title and album. -/
def mmFalsy : MatchedMeta := ⟨some "", some "New Artist", some "", none, none, some 50⟩

/-- A job claimed for tag-commit with `matched_meta = mmTA`. -/
def jobProc : Job := ⟨"/music/a.mp3", "processing", "pending", some 92, none, some mmTA, none⟩

/-- A tag-commit environment for an mp3 whose save succeeds. -/
def envWriteOk : WriteEnv := ⟨.mp3, oldTags, none⟩

/-- A job claimed for tag-commit whose `matched_meta` carries falsy fields. -/
def jobProcF : Job := { jobProc with matched_meta := some mmFalsy }

/-- Raw score within `[0, 1]` — the scale the code's `* 100` assumes the
service delivers (non-dict entries carry no score). -/
def scoreOk01 : AcoustidResult → Bool
  | .nonDict => true
  | .dict o => decide (0 ≤ o.score.getD 0) && decide (o.score.getD 0 ≤ 1)

/-- A candidate list whose only entry carries a well-formed association but
raw score 0. -/
def zeroScoreResults : List AcoustidResult := [.dict ⟨some 0, some [recX]⟩]

/-- A well-sequenced operation run: analysis fails on fingerprinting, then
the failed job is retried. -/
def ops0 : List Op := [.analyze 80 envFpFail, .retryIt]

theorem le_maxFrom (l : List ℚ) (b : ℚ) : b ≤ maxFrom b l := by
  induction l generalizing b with
  | nil => exact le_refl b
  | cons s ss ih => exact le_trans (le_max_left b s) (ih (max b s))

/-- Characterization of the selection loop: starting from score seed `b` and
current match `cur`, the loop returns the first association-carrying result
attaining the running maximum when that maximum strictly exceeds `b`, and
leaves the pair untouched otherwise. -/
theorem findBestLoop_char (l : List AcoustidResult) (b : ℚ) (cur : Option BestMatch) :
    findBestLoop b cur l =
      (if b < maxFrom b ((l.filter isValidResult).map resScore) then
        (((l.filter isValidResult).find?
            (fun r => resScore r = maxFrom b ((l.filter isValidResult).map resScore))).bind
          buildFromRes,
         maxFrom b ((l.filter isValidResult).map resScore))
      else (cur, b)) := by
  induction l generalizing b cur with
  | nil => simp [findBestLoop, maxFrom]
  | cons r rs ih =>
    cases r with
    | nonDict =>
      simp only [findBestLoop, List.filter_cons, isValidResult, Bool.false_eq_true,
        if_false]
      exact ih b cur
    | dict o =>
      cases hrec : o.recordings with
      | none =>
        simp only [findBestLoop, hrec, List.filter_cons, isValidResult, hrec]
        exact ih b cur
      | some recs =>
        by_cases hfind : ∃ rec, recs.find? (fun rec => rec.releasegroups.isSome) = some rec
        · obtain ⟨rec, hrec2⟩ := hfind
          have hvalid : isValidResult (.dict o) = true := by
            simp only [isValidResult, hrec]
            have := List.find?_some hrec2
            exact List.any_eq_true.mpr ⟨rec, List.mem_of_find?_eq_some hrec2, this⟩
          by_cases hs : o.score100 > b
          · -- the loop updates to this result
            simp only [findBestLoop, hrec, if_pos hs, hrec2]
            rw [ih]
            have hfil : (AcoustidResult.dict o :: rs).filter isValidResult =
                .dict o :: rs.filter isValidResult := by
              simp [List.filter_cons, hvalid]
            rw [hfil]
            simp only [List.map_cons, resScore]
            have hmax1 : maxFrom b (o.score100 :: (rs.filter isValidResult).map resScore) =
                maxFrom o.score100 ((rs.filter isValidResult).map resScore) := by
              simp [maxFrom, max_eq_right (le_of_lt hs)]
            simp only [hmax1]
            set m := maxFrom o.score100 ((rs.filter isValidResult).map resScore) with hm
            have hsm : o.score100 ≤ m := le_maxFrom _ _
            by_cases h2 : o.score100 < m
            · rw [if_pos h2, if_pos (lt_trans hs h2)]
              have : resScore (.dict o) ≠ m := by
                simp only [resScore]; exact ne_of_lt h2
              rw [List.find?_cons_of_neg _ (by simpa using this)]
            · have hme : m = o.score100 := le_antisymm (not_lt.mp h2) hsm
              rw [if_neg h2, if_pos (by rw [hme]; exact hs)]
              have : resScore (.dict o) = m := by simp [resScore, hme]
              rw [List.find?_cons_of_pos _ (by simpa using this)]
              simp [buildFromRes, hrec, hrec2, hme]
          · -- score not above the seed: the result is skipped
            simp only [findBestLoop, hrec, if_neg hs]
            rw [ih]
            have hfil : (AcoustidResult.dict o :: rs).filter isValidResult =
                .dict o :: rs.filter isValidResult := by
              simp [List.filter_cons, hvalid]
            rw [hfil]
            simp only [List.map_cons, resScore]
            have hbs : max b o.score100 = b := max_eq_left (not_lt.mp hs)
            have hmax1 : maxFrom b (o.score100 :: (rs.filter isValidResult).map resScore) =
                maxFrom b ((rs.filter isValidResult).map resScore) := by
              simp [maxFrom, hbs]
            simp only [hmax1]
            set m := maxFrom b ((rs.filter isValidResult).map resScore) with hm
            have hbm : b ≤ m := le_maxFrom _ _
            by_cases h2 : b < m
            · rw [if_pos h2, if_pos h2]
              have : resScore (.dict o) ≠ m := by
                simp only [resScore]
                exact ne_of_lt (lt_of_le_of_lt (not_lt.mp hs) h2)
              rw [List.find?_cons_of_neg _ (by simpa using this)]
            · rw [if_neg h2, if_neg h2]
        · -- no recording carries a release-group key: skipped, invalid
          have hnone : recs.find? (fun rec => rec.releasegroups.isSome) = none := by
            cases h : recs.find? (fun rec => rec.releasegroups.isSome) with
            | none => rfl
            | some rec => exact absurd ⟨rec, h⟩ hfind
          have hinvalid : isValidResult (.dict o) = false := by
            simp only [isValidResult, hrec]
            rw [List.any_eq_false]
            intro rec hmem
            have := List.find?_eq_none.mp hnone rec hmem
            simpa using this
          have hloop : findBestLoop b cur (.dict o :: rs) = findBestLoop b cur rs := by
            simp only [findBestLoop, hrec, hnone]
            split <;> rfl
          have hfil : (AcoustidResult.dict o :: rs).filter isValidResult =
              rs.filter isValidResult := by
            simp [List.filter_cons, hinvalid]
          rw [hloop, ih b cur]
          simp only [hfil]


/-! ## Field-level behaviour of the tag mapping -/

theorem applyTags_title (mm : MatchedMeta) (tags : Tags) :
    (applyTags mm tags).title = if truthy mm.title then mm.title else tags.title := by
  simp only [applyTags]
  split <;> split <;> split <;> split <;> rfl

theorem applyTags_artist (mm : MatchedMeta) (tags : Tags) :
    (applyTags mm tags).artist = if truthy mm.artist then mm.artist else tags.artist := by
  simp only [applyTags]
  split <;> split <;> split <;> split <;> rfl

theorem applyTags_album (mm : MatchedMeta) (tags : Tags) :
    (applyTags mm tags).album = if truthy mm.album then mm.album else tags.album := by
  simp only [applyTags]
  split <;> split <;> split <;> split <;> rfl

theorem applyTags_date (mm : MatchedMeta) (tags : Tags) :
    (applyTags mm tags).date = if truthy mm.date then mm.date else tags.date := by
  simp only [applyTags]
  split <;> split <;> split <;> split <;> rfl

/-- The file's tags after a `write_tags` run are either untouched (open/save
raised, or unsupported suffix) or the result of mapping the job's
`matched_meta` over them. -/
theorem write_tags_tags_cases (env : WriteEnv) (j : Job) :
    (write_tags env (some j)).tags = env.tags ∨
    (write_tags env (some j)).tags =
      applyTags (j.matched_meta.getD MatchedMeta.empty) env.tags := by
  cases hk : env.kind <;> cases hs : env.save_error <;>
    simp [write_tags, writeTagsBody, writeFail, hk, hs]

/-- On a successful run over a supported container, the file's tags are
exactly the mapped `matched_meta`. -/
theorem write_tags_tags_success (env : WriteEnv) (j : Job)
    (hsave : env.save_error = none) (hk : ∀ e, env.kind ≠ .other e) :
    (write_tags env (some j)).tags =
      applyTags (j.matched_meta.getD MatchedMeta.empty) env.tags := by
  cases hkk : env.kind
  case other e => exact absurd hkk (hk e)
  all_goals simp [write_tags, writeTagsBody, hkk, hsave]


/-- Claim C8 (frame effect of a tag-commit run): only fields present in the
job's `matched_meta` (among title, artist, album, date) are written to the
file's tag container — every field absent from `matched_meta` keeps its
pre-existing value — and a `matched_meta` populated with exactly
`{title, artist}` (non-empty) writes exactly those two fields, leaving
pre-existing album and date untouched. -/
theorem write_tags_only_present_fields (env : WriteEnv) (j : Job) (mm : MatchedMeta)
    (hmm : j.matched_meta = some mm) :
    ((mm.title = none → (write_tags env (some j)).tags.title = env.tags.title) ∧
     (mm.artist = none → (write_tags env (some j)).tags.artist = env.tags.artist) ∧
     (mm.album = none → (write_tags env (some j)).tags.album = env.tags.album) ∧
     (mm.date = none → (write_tags env (some j)).tags.date = env.tags.date)) ∧
    (∀ ti ar, env.save_error = none → (∀ e, env.kind ≠ .other e) →
      mm.title = some ti → ti ≠ "" → mm.artist = some ar → ar ≠ "" →
      mm.album = none → mm.date = none →
      (write_tags env (some j)).tags =
        { env.tags with title := some ti, artist := some ar }) := by
  constructor
  · rcases write_tags_tags_cases env j with h | h
    · rw [h]
      exact ⟨fun _ => rfl, fun _ => rfl, fun _ => rfl, fun _ => rfl⟩
    · rw [h, hmm]
      refine ⟨fun h0 => ?_, fun h0 => ?_, fun h0 => ?_, fun h0 => ?_⟩
      · rw [applyTags_title]; simp [truthy, h0]
      · rw [applyTags_artist]; simp [truthy, h0]
      · rw [applyTags_album]; simp [truthy, h0]
      · rw [applyTags_date]; simp [truthy, h0]
  · intro ti ar hsave hk hti htine har harne halb hdate
    rw [write_tags_tags_success env j hsave hk, hmm]
    simp [applyTags, truthy, hti, har, halb, hdate, htine, harne]

/-- Witness for C8: committing `mmTA = {title, artist}` over a file whose
tags are `oldTags` rewrites title and artist and keeps album and date. -/
theorem write_tags_only_present_fields_witness :
    (write_tags envWriteOk (some jobProc)).tags =
      { oldTags with title := some "New Title", artist := some "New Artist" } :=
  (write_tags_only_present_fields envWriteOk jobProc mmTA rfl).2
    "New Title" "New Artist" rfl (fun _ h => FileKind.noConfusion h)
    rfl (by decide) rfl (by decide) rfl rfl

/-- Claim C10 (falsy fields are treated as absent): a `matched_meta` field that
is the empty string (or otherwise falsy under Python truthiness) is not
written to the tag container, and the file's pre-existing value for that
field is left unchanged. -/
theorem falsy_fields_left_unchanged (env : WriteEnv) (j : Job) (mm : MatchedMeta)
    (hmm : j.matched_meta = some mm) :
    (truthy mm.title = false → (write_tags env (some j)).tags.title = env.tags.title) ∧
    (truthy mm.artist = false → (write_tags env (some j)).tags.artist = env.tags.artist) ∧
    (truthy mm.album = false → (write_tags env (some j)).tags.album = env.tags.album) ∧
    (truthy mm.date = false → (write_tags env (some j)).tags.date = env.tags.date) := by
  rcases write_tags_tags_cases env j with h | h
  · rw [h]
    exact ⟨fun _ => rfl, fun _ => rfl, fun _ => rfl, fun _ => rfl⟩
  · rw [h, hmm]
    refine ⟨fun h0 => ?_, fun h0 => ?_, fun h0 => ?_, fun h0 => ?_⟩
    · rw [applyTags_title]; simp [h0]
    · rw [applyTags_artist]; simp [h0]
    · rw [applyTags_album]; simp [h0]
    · rw [applyTags_date]; simp [h0]

/-- Witness for C10: empty-string title and album in `mmFalsy` leave the
file's pre-existing title and album in place. -/
theorem falsy_fields_left_unchanged_witness :
    (write_tags envWriteOk (some jobProcF)).tags.title = oldTags.title ∧
    (write_tags envWriteOk (some jobProcF)).tags.album = oldTags.album :=
  ⟨(falsy_fields_left_unchanged envWriteOk jobProcF mmFalsy rfl).1 (by decide),
   (falsy_fields_left_unchanged envWriteOk jobProcF mmFalsy rfl).2.2.1 (by decide)⟩

/-! ## Confidence routing and analysis outcomes -/

/-- Claim C3 (confidence routing): every successful analysis run with stored
confidence `c` and threshold `t` routes to queue `processing` when `c ≥ t`
and to `review` when `c < t`; the boundary `c = t` routes to `processing`. -/
theorem analyze_routes_by_threshold (t : ℚ) (env : AnalyzeEnv) (s : Option Job)
    (c : ℚ) (q : String)
    (h : (analyze_track t env s).result = .success c q) :
    (t ≤ c → q = "processing") ∧ (c < t → q = "review") := by
  cases s with
  | none => simp [analyze_track] at h
  | some job =>
    simp only [analyze_track] at h
    split at h
    · simp [analyzeFail] at h
    · split at h
      · simp [analyzeFail] at h
      · split at h
        · simp [analyzeFail] at h
        · simp only [AnalyzeResult.success.injEq] at h
          obtain ⟨hc, hq⟩ := h
          subst hc
          subst hq
          constructor
          · intro hle
            rw [if_pos hle]
          · intro hlt
            rw [if_neg (not_le.mpr hlt)]

/-- Witness for C3 at the boundary: raw score 4/5 scales to confidence 80,
which at threshold 80 routes to `processing`. -/
theorem analyze_routes_by_threshold_witness :
    ((80 : ℚ) ≤ 80 → ("processing" : String) = "processing") ∧
    ((80 : ℚ) < 80 → ("processing" : String) = "review") :=
  analyze_routes_by_threshold 80 (envScore (4/5)) (some job0) 80 "processing"
    (by norm_num [analyze_track, envScore, findBestLoop, ResultObj.score100,
      job0, recX, rgX, buildMatched])

/-- Claim C7 counterexample: when fingerprinting fails, the `error` column holds
`"Failed to generate fingerprint"` — not the string `"fingerprint failure"`
the claim states. -/
theorem fingerprint_error_text_counterexample :
    (analyze_track 80 envFpFail (some job0)).store.bind Job.error =
      some "Failed to generate fingerprint" ∧
    some "Failed to generate fingerprint" ≠ some "fingerprint failure" := by
  constructor
  · rfl
  · decide

/-- Claim C7 amended: every analysis run whose fingerprint computation fails
ends in `(failed, failed)` with `error = "Failed to generate fingerprint"`
(the code's literal exception text, not the spec's "fingerprint failure"). -/
theorem fingerprint_failure_marks_failed (t : ℚ) (env : AnalyzeEnv) (j : Job)
    (h : env.fingerprint_ok = false) :
    (analyze_track t env (some j)).store =
      some { j with queue := "failed", status := "failed", error := some "Failed to generate fingerprint" } ∧
    (analyze_track t env (some j)).result =
      .failure "Failed to generate fingerprint" := by
  constructor <;> simp [analyze_track, analyzeFail, h]

/-- Witness for the amended C7 at a concrete run. -/
theorem fingerprint_failure_marks_failed_witness :
    (analyze_track 80 envFpFail (some job0)).store = some jobFailed0 ∧
    (analyze_track 80 envFpFail (some job0)).result =
      .failure "Failed to generate fingerprint" :=
  fingerprint_failure_marks_failed 80 envFpFail job0 rfl

/-- If the loop's seed lies in `[0, 100]` and every raw score lies in
`[0, 1]`, the final `best_score` lies in `[0, 100]`. -/
theorem findBestLoop_snd_bounds (l : List AcoustidResult) (b : ℚ) (cur : Option BestMatch)
    (hb0 : 0 ≤ b) (hb1 : b ≤ 100) (hok : ∀ r ∈ l, scoreOk01 r = true) :
    0 ≤ (findBestLoop b cur l).2 ∧ (findBestLoop b cur l).2 ≤ 100 := by
  induction l generalizing b cur with
  | nil => exact ⟨hb0, hb1⟩
  | cons r rs ih =>
    have htail : ∀ r ∈ rs, scoreOk01 r = true :=
      fun r hr => hok r (List.mem_cons_of_mem _ hr)
    cases r with
    | nonDict => exact ih b cur hb0 hb1 htail
    | dict o =>
      have hsc := hok _ (List.mem_cons_self _ _)
      simp only [scoreOk01, Bool.and_eq_true, decide_eq_true_eq] at hsc
      obtain ⟨h0, h1⟩ := hsc
      have hs0 : 0 ≤ o.score100 :=
        mul_nonneg h0 (by norm_num)
      have hs1 : o.score100 ≤ 100 := by
        have := mul_le_mul_of_nonneg_right h1 (show (0:ℚ) ≤ 100 by norm_num)
        simpa [ResultObj.score100] using this
      cases hrec : o.recordings with
      | none => simpa only [findBestLoop, hrec] using ih b cur hb0 hb1 htail
      | some recs =>
        simp only [findBestLoop, hrec]
        split
        · split
          · exact ih _ _ hs0 hs1 htail
          · exact ih b cur hb0 hb1 htail
        · exact ih b cur hb0 hb1 htail

/-- Claim C9 counterexample: with a single association-carrying candidate at
raw score 100 — inside the claim's stated 0..100 contract range — the stored
confidence is 10000, far outside `[0, 100]`, because the code multiplies the
raw score by 100. -/
theorem confidence_range_counterexample :
    (analyze_track 80 (envScore 100) (some job0)).result = .success 10000 "processing" ∧
    ((0:ℚ) ≤ 100 ∧ (100:ℚ) ≤ 100) ∧ ¬ ((10000:ℚ) ≤ 100) := by
  refine ⟨?_, by norm_num, by norm_num⟩
  norm_num [analyze_track, envScore, findBestLoop, ResultObj.score100,
    job0, recX, rgX, buildMatched]

/-- Claim C9 amended: for every analysis run whose candidates carry raw scores
in `[0, 1]` (the scale the code's `* 100` scaling assumes of the service),
the confidence stored on success lies in `[0, 100]`. -/
theorem confidence_within_bounds (t : ℚ) (env : AnalyzeEnv) (s : Option Job)
    (c : ℚ) (q : String)
    (hok : ∀ r ∈ env.results, scoreOk01 r = true)
    (h : (analyze_track t env s).result = .success c q) :
    0 ≤ c ∧ c ≤ 100 := by
  cases s with
  | none => simp [analyze_track] at h
  | some job =>
    simp only [analyze_track] at h
    split at h
    · simp [analyzeFail] at h
    · split at h
      · simp [analyzeFail] at h
      · split at h
        · simp [analyzeFail] at h
        · rename_i bm bestScore heq
          simp only [AnalyzeResult.success.injEq] at h
          obtain ⟨hc, hq⟩ := h
          subst hc
          have hb := findBestLoop_snd_bounds env.results 0 none
            (le_refl 0) (by norm_num) hok
          rw [heq] at hb
          exact hb

/-- Witness for the amended C9: raw score 4/5 yields stored confidence 80,
inside `[0, 100]`. -/
theorem confidence_within_bounds_witness :
    (0:ℚ) ≤ 80 ∧ (80:ℚ) ≤ 100 :=
  confidence_within_bounds 80 (envScore (4/5)) (some job0) 80 "processing"
    (by
      intro r hr
      simp only [envScore, List.mem_singleton] at hr
      subst hr
      simp only [scoreOk01, Bool.and_eq_true, decide_eq_true_eq]
      norm_num)
    (by norm_num [analyze_track, envScore, findBestLoop, ResultObj.score100,
      job0, recX, rgX, buildMatched])

/-! ## Best-match selection -/

/-- Claim C6 counterexample: a candidate list whose only entry carries a
well-formed association but score 0 selects nothing — the loop's strict
`score > best_score` test against the 0 seed skips it — so the run fails
instead of selecting the highest-scoring association-carrying candidate. -/
theorem best_match_selection_counterexample :
    zeroScoreResults.filter isValidResult ≠ [] ∧
    (findBestLoop 0 none zeroScoreResults).1 = none := by
  constructor
  · decide
  · norm_num [findBestLoop, zeroScoreResults, recX, rgX, ResultObj.score100]

/-- Claim C6 amended: the selection loop returns exactly `specSelect`: among
candidates carrying a well-formed recording-with-release-group association it
picks the one with the highest scaled score, first-seen winning ties — but
only when that highest score is strictly positive; otherwise (in particular
when the only association-carrying candidates score 0) nothing is selected
and the run fails.  The returned `best_score` is the running maximum of the
valid candidates' scaled scores, seeded with 0. -/
theorem best_match_selection_spec (l : List AcoustidResult) :
    findBestLoop 0 none l =
      (specSelect l, maxFrom 0 ((l.filter isValidResult).map resScore)) := by
  rw [findBestLoop_char]
  simp only [specSelect]
  by_cases h : (0:ℚ) < maxFrom 0 ((l.filter isValidResult).map resScore)
  · rw [if_pos h, if_pos h]
  · rw [if_neg h, if_neg h]
    have h0 : maxFrom 0 ((l.filter isValidResult).map resScore) = 0 :=
      le_antisymm (not_lt.mp h) (le_maxFrom _ _)
    rw [h0]

/-! ## Claim step, approval, retry -/

/-- Claim C1 counterexample: `(done, done)` is not the eligible claim state for
analysis, yet an `analyze_track` run on such a job still mutates and commits
the row (the claim `UPDATE` is conditioned only on the id). -/
theorem worker_claim_counterexample :
    jobDone.statePair ≠ ("analysis", "pending") ∧
    (analyze_track 80 envFpFail (some jobDone)).store ≠ some jobDone ∧
    (analyze_track 80 envFpFail (some jobDone)).trace ≠ [] := by
  exact ⟨by decide, by decide, by decide⟩

/-- Claim C1 amended: the worker pipelines claim their job with a write
conditioned only on the row's existence.  A missing row aborts the run with
no side effects; for an existing row the run's final store, effects and
returned result are entirely independent of the row's current
`(queue, status)` — the claim and the subsequent transitions are
unconditional writes. -/
theorem worker_claim_unconditional (t : ℚ) (aenv : AnalyzeEnv) (wenv : WriteEnv)
    (j : Job) (q1 s1 q2 s2 : String) :
    analyze_track t aenv none = ⟨[], none, [], .jobNotFound⟩ ∧
    write_tags wenv none = ⟨[], none, wenv.tags, .jobNotFound⟩ ∧
    ((analyze_track t aenv (some { j with queue := q1, status := s1 })).store =
       (analyze_track t aenv (some { j with queue := q2, status := s2 })).store ∧
     (analyze_track t aenv (some { j with queue := q1, status := s1 })).enqueues =
       (analyze_track t aenv (some { j with queue := q2, status := s2 })).enqueues ∧
     (analyze_track t aenv (some { j with queue := q1, status := s1 })).result =
       (analyze_track t aenv (some { j with queue := q2, status := s2 })).result) ∧
    ((write_tags wenv (some { j with queue := q1, status := s1 })).store =
       (write_tags wenv (some { j with queue := q2, status := s2 })).store ∧
     (write_tags wenv (some { j with queue := q1, status := s1 })).tags =
       (write_tags wenv (some { j with queue := q2, status := s2 })).tags ∧
     (write_tags wenv (some { j with queue := q1, status := s1 })).result =
       (write_tags wenv (some { j with queue := q2, status := s2 })).result) := by
  refine ⟨rfl, rfl, ?_, ?_⟩
  · simp only [analyze_track]
    split
    · exact ⟨rfl, rfl, rfl⟩
    · split
      · exact ⟨rfl, rfl, rfl⟩
      · split
        · exact ⟨rfl, rfl, rfl⟩
        · exact ⟨rfl, rfl, rfl⟩
  · simp only [write_tags, writeTagsBody, writeFail]
    split
    · exact ⟨rfl, rfl, rfl⟩
    all_goals split <;> exact ⟨rfl, rfl, rfl⟩

/-- Claim C4 counterexample: approving a `(done, done)` job leaves the row
untouched (the conditional transition into `(processing, pending)` failed),
yet the UI handler still enqueues the job id on the `processing` channel. -/
theorem approve_enqueue_counterexample :
    (app_approve_job (some jobDone)).store = some jobDone ∧
    (app_approve_job (some jobDone)).enqueues = ["processing"] := by
  exact ⟨by decide, by decide⟩

/-- Claim C4 amended: the approval enqueue is not tied to the transition's
success: the UI handler enqueues whenever the row exists, the worker-module
handler enqueues unconditionally (even for a missing id), while the
conditional update itself moves only rows whose queue is `review`.  The
analysis pipeline's auto-promotion enqueues exactly when confidence routing
chose the `processing` queue (its persisting write being unconditional). -/
theorem approve_enqueue_unconditional (s : Option Job) (j : Job) (t : ℚ)
    (env : AnalyzeEnv) (c : ℚ) (q : String) :
    (app_approve_job (some j)).enqueues = ["processing"] ∧
    (app_approve_job none).enqueues = [] ∧
    (tasks_approve_job s).enqueues = ["processing"] ∧
    (j.queue = "review" →
      (app_approve_job (some j)).store =
        some { j with queue := "processing", status := "pending" }) ∧
    (j.queue ≠ "review" → (app_approve_job (some j)).store = some j) ∧
    ((analyze_track t env (some j)).result = .success c q →
      (analyze_track t env (some j)).enqueues =
        if q = "processing" then ["processing"] else []) := by
  refine ⟨?_, rfl, ?_, ?_, ?_, ?_⟩
  · simp only [app_approve_job]
    split <;> rfl
  · cases s with
    | none => rfl
    | some j' =>
      simp only [tasks_approve_job]
      split <;> rfl
  · intro hq
    simp [app_approve_job, hq]
  · intro hq
    simp [app_approve_job, hq]
  · simp only [analyze_track]
    split
    · intro h; simp [analyzeFail] at h
    · split
      · intro h; simp [analyzeFail] at h
      · split
        · intro h; simp [analyzeFail] at h
        · intro h
          simp only [AnalyzeResult.success.injEq] at h
          obtain ⟨hc, hq⟩ := h
          subst hq
          rfl

/-- Witness for the amended C4: approving a review job both transitions and
enqueues; approving a done job enqueues despite the failed transition; a
successful auto-promoting analysis run enqueues on `processing`. -/
theorem approve_enqueue_unconditional_witness :
    (app_approve_job (some jobReview)).store =
      some { jobReview with queue := "processing", status := "pending" } ∧
    (app_approve_job (some jobDone)).store = some jobDone ∧
    (analyze_track 80 (envScore (4/5)) (some jobReview)).enqueues =
      (if ("processing" : String) = "processing" then ["processing"] else []) := by
  have H1 := approve_enqueue_unconditional (some jobDone) jobReview 80 (envScore (4/5)) 80 "processing"
  have H2 := approve_enqueue_unconditional (some jobDone) jobDone 80 (envScore (4/5)) 80 "processing"
  exact ⟨H1.2.2.2.1 rfl, H2.2.2.2.2.1 (by decide),
    H1.2.2.2.2.2 (by norm_num [analyze_track, envScore, findBestLoop,
      ResultObj.score100, jobReview, recX, rgX, buildMatched])⟩

/-- Claim C5 (retry semantics): retrying a `(failed, failed)` job clears
`error`, moves the row to `(analysis, pending)` and enqueues the id on the
`analysis` channel; retrying a job outside the failed queue (or a missing
id) changes nothing, reports an error to the caller, and enqueues nothing. -/
theorem retry_behaviour (j : Job) :
    (j.queue = "failed" → j.status = "failed" →
      retry_job (some j) =
        ⟨[{ j with queue := "analysis", status := "pending", error := none }],
         some { j with queue := "analysis", status := "pending", error := none },
         ["analysis"], true⟩) ∧
    (j.queue ≠ "failed" → retry_job (some j) = ⟨[j], some j, [], false⟩) ∧
    retry_job none = ⟨[], none, [], false⟩ := by
  refine ⟨?_, ?_, rfl⟩
  · intro hq _
    simp [retry_job, hq]
  · intro hq
    simp [retry_job, hq]

/-- Witness for C5: retrying the fingerprint-failed job restores
`(analysis, pending)` with `error` cleared and enqueues `analysis`; retrying
a done job is a reported no-op. -/
theorem retry_behaviour_witness :
    retry_job (some jobFailed0) =
      ⟨[{ jobFailed0 with queue := "analysis", status := "pending", error := none }],
       some { jobFailed0 with queue := "analysis", status := "pending", error := none },
       ["analysis"], true⟩ ∧
    retry_job (some jobDone) = ⟨[jobDone], some jobDone, [], false⟩ :=
  ⟨(retry_behaviour jobFailed0).1 rfl rfl, (retry_behaviour jobDone).2.1 (by decide)⟩

/-! ## The state machine invariant -/

/-- Every §4.3 edge ends at one of the eight valid pairs. -/
theorem validEdge_target (p q : String × String) (h : validEdge p q) :
    q ∈ validPairs := by
  unfold validEdge machineEdges at h
  simp only [List.mem_cons, List.not_mem_nil, or_false] at h
  rcases h with h|h|h|h|h|h|h|h|h|h <;>
    (injection h with h1 h2; subst h1; subst h2; decide)

/-- A walk along §4.3 edges that starts at a valid pair stays inside the
valid pairs. -/
theorem chain_mem_validPairs (l : List (String × String)) (p : String × String)
    (hch : List.Chain validEdge p l) (hp : p ∈ validPairs) :
    ∀ q ∈ l, q ∈ validPairs := by
  induction l generalizing p with
  | nil => intro q hq; cases hq
  | cons x xs ih =>
    rw [List.chain_cons] at hch
    obtain ⟨hpx, hxs⟩ := hch
    intro q hq
    rcases List.mem_cons.mp hq with rfl | hq'
    · exact validEdge_target _ _ hpx
    · exact ih x hxs (validEdge_target _ _ hpx) q hq'

/-- Edge walks compose. -/
theorem pathFrom_append (p q r : String × String)
    (l1 l2 : List (String × String))
    (h1 : PathFrom p l1 q) (h2 : PathFrom q l2 r) :
    PathFrom p (l1 ++ l2) r := by
  induction l1 generalizing p with
  | nil =>
    obtain ⟨_, hlast⟩ := h1
    simp only [lastPair] at hlast
    subst hlast
    simpa using h2
  | cons x xs ih =>
    obtain ⟨hch, hlast⟩ := h1
    rw [List.chain_cons] at hch
    obtain ⟨hpx, hxs⟩ := hch
    have hlast' : lastPair x xs = q := hlast
    have hrec := ih x ⟨hxs, hlast'⟩
    exact ⟨List.chain_cons.mpr ⟨hpx, hrec.1⟩, hrec.2⟩

/-- Fired from its intended source state, each operation keeps the row
present and walks only §4.3 edges through its committed snapshots. -/
theorem runOp_guarded (op : Op) (j : Job) (h : j.statePair = opSource op) :
    ∃ jend, (runOp op (some j)).2 = some jend ∧
      PathFrom j.statePair ((runOp op (some j)).1.map Job.statePair)
        jend.statePair := by
  cases op with
  | analyze t env =>
    simp only [Job.statePair, opSource, Prod.mk.injEq] at h
    obtain ⟨hq, hs⟩ := h
    simp only [runOp, analyze_track, analyzeFail]
    split
    · refine ⟨_, rfl, ⟨?_, ?_⟩⟩
      · simp only [List.map_cons, List.map_nil, Job.statePair, hq, hs,
          List.chain_cons, List.Chain.nil, and_true]
        decide
      · rfl
    · split
      · refine ⟨_, rfl, ⟨?_, ?_⟩⟩
        · simp only [List.map_cons, List.map_nil, Job.statePair, hq, hs,
          List.chain_cons, List.Chain.nil, and_true]
          decide
        · rfl
      · split
        · refine ⟨_, rfl, ⟨?_, ?_⟩⟩
          · simp only [List.map_cons, List.map_nil, Job.statePair, hq, hs,
          List.chain_cons, List.Chain.nil, and_true]
            decide
          · rfl
        · split
          · refine ⟨_, rfl, ⟨?_, ?_⟩⟩
            · simp only [List.map_cons, List.map_nil, Job.statePair, hq, hs,
          List.chain_cons, List.Chain.nil, and_true]
              decide
            · rfl
          · refine ⟨_, rfl, ⟨?_, ?_⟩⟩
            · simp only [List.map_cons, List.map_nil, Job.statePair, hq, hs,
          List.chain_cons, List.Chain.nil, and_true]
              decide
            · rfl
  | commitTags env =>
    simp only [Job.statePair, opSource, Prod.mk.injEq] at h
    obtain ⟨hq, hs⟩ := h
    simp only [runOp, write_tags, writeTagsBody, writeFail]
    split
    · refine ⟨_, rfl, ⟨?_, ?_⟩⟩
      · simp only [List.map_cons, List.map_nil, Job.statePair, hq, hs,
          List.chain_cons, List.Chain.nil, and_true]
        decide
      · rfl
    all_goals
      split <;>
        (refine ⟨_, rfl, ⟨?_, ?_⟩⟩
         · simp only [List.map_cons, List.map_nil, Job.statePair, hq, hs,
          List.chain_cons, List.Chain.nil, and_true]
           decide
         · rfl)
  | approveUI =>
    simp only [Job.statePair, opSource, Prod.mk.injEq] at h
    obtain ⟨hq, hs⟩ := h
    simp only [runOp, app_approve_job]
    split
    · refine ⟨_, rfl, ⟨?_, ?_⟩⟩
      · simp only [List.map_cons, List.map_nil, Job.statePair, hq, hs,
          List.chain_cons, List.Chain.nil, and_true]
        decide
      · rfl
    · rename_i hcond
      exact absurd hq hcond
  | approveWorker =>
    simp only [Job.statePair, opSource, Prod.mk.injEq] at h
    obtain ⟨hq, hs⟩ := h
    simp only [runOp, tasks_approve_job]
    split
    · refine ⟨_, rfl, ⟨?_, ?_⟩⟩
      · simp only [List.map_cons, List.map_nil, Job.statePair, hq, hs,
          List.chain_cons, List.Chain.nil, and_true]
        decide
      · rfl
    · rename_i hcond
      exact absurd hq hcond
  | rejectIt =>
    simp only [Job.statePair, opSource, Prod.mk.injEq] at h
    obtain ⟨hq, hs⟩ := h
    simp only [runOp, reject_job]
    split
    · refine ⟨_, rfl, ⟨?_, ?_⟩⟩
      · simp only [List.map_cons, List.map_nil, Job.statePair, hq, hs,
          List.chain_cons, List.Chain.nil, and_true]
        decide
      · rfl
    · rename_i hcond
      exact absurd hq hcond
  | retryIt =>
    simp only [Job.statePair, opSource, Prod.mk.injEq] at h
    obtain ⟨hq, hs⟩ := h
    simp only [runOp, retry_job]
    split
    · refine ⟨_, rfl, ⟨?_, ?_⟩⟩
      · simp only [List.map_cons, List.map_nil, Job.statePair, hq, hs,
          List.chain_cons, List.Chain.nil, and_true]
        decide
      · rfl
    · rename_i hcond
      exact absurd hq hcond

/-- A well-sequenced run keeps the row present and its committed snapshots
walk §4.3 edges from the starting pair to the final row's pair. -/
theorem runOps_path (ops : List Op) (j : Job) (hseq : WellSeq ops j) :
    ∃ jend, (runOps ops (some j)).2 = some jend ∧
      PathFrom j.statePair ((runOps ops (some j)).1.map Job.statePair)
        jend.statePair := by
  induction ops generalizing j with
  | nil => exact ⟨j, rfl, ⟨List.Chain.nil, rfl⟩⟩
  | cons op ops ih =>
    obtain ⟨hguard, hrest⟩ := hseq
    obtain ⟨j1, h1, hpath1⟩ := runOp_guarded op j hguard
    obtain ⟨jend, h2, hpath2⟩ := ih j1 (hrest j1 h1)
    refine ⟨jend, ?_, ?_⟩
    · simp only [runOps]
      rw [h1]
      exact h2
    · simp only [runOps]
      rw [h1, List.map_append]
      exact pathFrom_append _ _ _ _ _ hpath1 hpath2

/-- Claim C2 counterexample: a redelivered analysis task claiming a
`(review, pending)` job commits the pair `(review, processing)`, which is not
among the eight pairs of the §4.3 state machine. -/
theorem state_machine_counterexample :
    ("review", "processing") ∈
      ((analyze_track 80 envFpFail (some jobReview)).trace.map Job.statePair) ∧
    ("review", "processing") ∉ validPairs := by
  exact ⟨by decide, by decide⟩

/-- Claim C2 amended: provided every operation fires only from its intended
§4.3 source state — analysis from `(analysis, pending)`, tag-commit from
`(processing, pending)`, approval/rejection from `(review, pending)`, retry
from `(failed, failed)` — a job starting at `(analysis, pending)` visits only
the eight valid `(queue, status)` pairs, along a valid path of §4.3 edges,
across every committed snapshot of every operation sequence. -/
theorem state_machine_path (ops : List Op) (j : Job)
    (h0 : j.statePair = ("analysis", "pending")) (hseq : WellSeq ops j) :
    List.Chain validEdge j.statePair
      ((runOps ops (some j)).1.map Job.statePair) ∧
    ∀ p ∈ j.statePair :: (runOps ops (some j)).1.map Job.statePair,
      p ∈ validPairs := by
  obtain ⟨jend, hend, hpath⟩ := runOps_path ops j hseq
  refine ⟨hpath.1, ?_⟩
  intro p hp
  rcases List.mem_cons.mp hp with rfl | hp'
  · rw [h0]; decide
  · exact chain_mem_validPairs _ _ hpath.1 (by rw [h0]; decide) p hp'

/-- Witness for the amended C2: a failed analysis followed by a retry walks
`(analysis,pending) → (analysis,processing) → (failed,failed) →
(analysis,pending)` through valid pairs only. -/
theorem state_machine_path_witness :
    List.Chain validEdge job0.statePair
      ((runOps ops0 (some job0)).1.map Job.statePair) ∧
    ∀ p ∈ job0.statePair :: (runOps ops0 (some job0)).1.map Job.statePair,
      p ∈ validPairs := by
  apply state_machine_path ops0 job0 rfl
  refine ⟨rfl, ?_⟩
  intro j1 h1
  have h1' : (runOp (Op.analyze 80 envFpFail) (some job0)).2 = some jobFailed0 := by
    decide
  rw [h1'] at h1
  injection h1 with h1
  subst h1
  refine ⟨rfl, ?_⟩
  intro j2 h2
  exact trivial
